import Mathlib

/-!
Verification development for the pptx audio transcription repository.

The repository extracts audio clips from zip-structured slide-deck
containers, validates them, transcribes them with an external engine, and
merges per-clip results into one transcript (`.txt`) and one subtitle
track (`.vtt`) per document.

External collaborators (the zip reader, ffmpeg decode/probe, the whisper
engine) are modelled by recording their outcomes as fields of the input
data (`ZipEntry.corrupted`, `AudioClip.decodable`, `AudioClip.probe`,
`AudioClip.transcription`, `AudioClip.segments`).  Python floats are
modelled as exact rationals (`ℚ`); Python strings as Lean `String`, with
the string primitives the code uses (`startswith`, `endswith`, `strip`,
`replace`, lexicographic sorting) re-implemented over `List Char` so that
they mirror Python semantics and evaluate inside the kernel.

Source files embedded:
* `pptx_audio_transc_onefile.py` — namespace `OneFile`
* `transcribe.py`                — namespace `Transcribe`
-/

/-- Python-style character comparison by code point. -/
def charLt (a b : Char) : Bool := a.toNat < b.toNat

/-- Lexicographic `≤` on character lists by code point (Python string `<=`). -/
def lexLe : List Char → List Char → Bool
  | [], _ => true
  | _ :: _, [] => false
  | a :: as, b :: bs =>
    if charLt a b then true
    else if charLt b a then false
    else lexLe as bs

/-- Ordering used by Python `sorted` on the extracted file paths. -/
def fileLe (a b : String) : Prop := lexLe a.toList b.toList = true

instance : DecidableRel fileLe := fun a b => instDecidableEqBool (lexLe a.toList b.toList) true

/-- Python `s.startswith(p)`. -/
def pyStartsWith (s p : String) : Bool := List.isPrefixOf p.toList s.toList

/-- Python `s.endswith(p)`. -/
def pyEndsWith (s p : String) : Bool := List.isSuffixOf p.toList s.toList

def isSpaceChar (c : Char) : Bool := c.isWhitespace

/-- Python `s.strip()`: the characters of `s` with leading and trailing
whitespace removed. -/
def pyStrip (s : String) : List Char :=
  ((s.toList.dropWhile isSpaceChar).reverse.dropWhile isSpaceChar).reverse

/-- Worker for Python `str.replace`: replaces every non-overlapping
occurrence of `o :: os`, scanning left to right.  `fuel` bounds the
recursion; it is initialised to the length of the scanned list, which
never increases faster than the fuel is spent. -/
def replaceAux (o : Char) (os new : List Char) : Nat → List Char → List Char
  | _, [] => []
  | 0, l => l
  | fuel + 1, c :: rest =>
    if List.isPrefixOf (o :: os) (c :: rest) then
      new ++ replaceAux o os new fuel (rest.drop os.length)
    else
      c :: replaceAux o os new fuel rest

/-- Python `s.replace(old, new)` for non-empty `old` (the only way the
repository calls it). -/
def pyReplace (s old new : String) : String :=
  match old.toList with
  | [] => s
  | o :: os => String.mk (replaceAux o os new.toList s.toList.length s.toList)

/-- Python `int()` applied to a rational: truncation toward zero. -/
def pyInt (q : ℚ) : ℤ := if 0 ≤ q then ⌊q⌋ else -⌊-q⌋

/-- Python `q % 1` for a rational `q`: the fractional part, always in `[0, 1)`. -/
def pyMod1 (q : ℚ) : ℚ := q - (⌊q⌋ : ℚ)

/-- Python `f"{n:0w}"`: decimal rendering zero-padded to width `w`,
with the sign counted inside the width, zeros after the sign. -/
def zpad (w : Nat) (n : ℤ) : String :=
  let sign := if n < 0 then "-" else ""
  let digits := toString n.natAbs
  if (sign ++ digits).length < w then
    sign ++ String.mk (List.replicate (w - (sign ++ digits).length) '0') ++ digits
  else
    sign ++ digits

/-- One transcription segment as returned by the engine: `(start, end, text)`
relative to the clip's own time zero (`stop` stands for Python's `end`). -/
structure Segment where
  start : ℚ
  stop : ℚ
  text : String
deriving DecidableEq

/-- One extracted audio clip together with the outcomes of the external
collaborators on it: `decodable` is the ffmpeg verify result used by
`is_valid_audio`, `probe` is the ffmpeg.probe outcome (`none` models the
probe raising an exception), `transcription` and `segments` are the
whisper results. -/
structure AudioClip where
  name : String
  decodable : Bool
  probe : Option ℚ
  transcription : String
  segments : List Segment
deriving DecidableEq

/-- One cue of the merged subtitle track, on the document's global timeline. -/
structure MergedCue where
  global_start : ℚ
  global_end : ℚ
  text : String
deriving DecidableEq

/-- One member of the zip container: its name and whether extracting it
raises `zipfile.BadZipFile`. -/
structure ZipEntry where
  filename : String
  corrupted : Bool
deriving DecidableEq

/-- Result of the extraction phase: the corrupted-entry report, the set of
successfully extracted audio entries, and the candidate clip list. -/
structure ExtractResult where
  corrupted_files : List String
  extracted : List String
  audio_files : List String
deriving DecidableEq

def mediaFolderName : String := "ppt/media/"
def extM4a : String := ".m4a"
def extMp3 : String := ".mp3"
def extWav : String := ".wav"
def extTxt : String := ".txt"
def extVtt : String := ".vtt"
def slashChar : Char := '/'

/-- The zip-entry selection predicate of `extract_audio_from_pptx`:
`file_info.filename.startswith('ppt/media/') and
 file_info.filename.endswith(('.m4a', '.mp3', '.wav'))`. -/
def isAudioEntryName (name : String) : Bool :=
  pyStartsWith name mediaFolderName &&
    (pyEndsWith name extM4a || pyEndsWith name extMp3 || pyEndsWith name extWav)

/-- A container-relative name that the glob `media_folder.glob('*.m4a')`
would match after extraction: it lies directly in `ppt/media/` (no further
subdirectory) and ends in `.m4a`. -/
def isM4aCandidate (name : String) : Bool :=
  pyStartsWith name mediaFolderName &&
    !((name.toList.drop mediaFolderName.toList.length).contains slashChar) &&
    pyEndsWith name extM4a

namespace OneFile

/-- `extract_audio_from_pptx` of `pptx_audio_transc_onefile.py`, over the
container's entry list.  Audio entries are those matched by the selection
predicate; extracting a corrupted one raises `zipfile.BadZipFile`, which
is caught per entry: the name is recorded in `corrupted_files` and the
loop continues.  The candidate list `audio_files` is
`sorted(media_folder.glob('*.m4a'))`: the successfully extracted entries
lying directly in the media folder with extension `.m4a`, in lexicographic
order.  (A failed extraction is modelled as producing no file.) -/
def extract_audio_from_pptx (entries : List ZipEntry) : ExtractResult :=
  let audioEntries := entries.filter (fun e => isAudioEntryName e.filename)
  let corrupted := (audioEntries.filter (fun e => e.corrupted)).map (fun e => e.filename)
  let okNames := (audioEntries.filter (fun e => !e.corrupted)).map (fun e => e.filename)
  { corrupted_files := corrupted
    extracted := okNames
    audio_files := List.insertionSort fileLe (okNames.filter isM4aCandidate) }

/-- `is_valid_audio`: runs `ffmpeg -v error -i file -f null -` and reports
whether the decoder exited with code 0 (recorded in `decodable`); an
invocation failure also yields `false`. -/
def is_valid_audio (c : AudioClip) : Bool := c.decodable

/-- `get_audio_duration`: `float(ffmpeg.probe(file)['format']['duration'])`,
falling back to `0.0` on any exception (`probe = none`). -/
def get_audio_duration (c : AudioClip) : ℚ :=
  match c.probe with
  | some d => d
  | none => 0

/-- `is_silent_transcription`: `len(text.strip()) == 0`. -/
def is_silent_transcription (text : String) : Bool := (pyStrip text).isEmpty

/-- `format_time` of `pptx_audio_transc_onefile.py`:
`millis = int((seconds % 1) * 1000)`, `seconds = int(seconds)`,
`minutes = seconds // 60`, `hours = minutes // 60`, rendered as
`f"{hours:02}:{minutes % 60:02}:{seconds % 60:02}.{millis:03}"`. -/
def format_time (seconds : ℚ) : String :=
  let millis : ℤ := pyInt (pyMod1 seconds * 1000)
  let s : ℤ := pyInt seconds
  let minutes : ℤ := Int.fdiv s 60
  let hours : ℤ := Int.fdiv minutes 60
  zpad 2 hours ++ ":" ++ zpad 2 (Int.fmod minutes 60) ++ ":" ++ zpad 2 (Int.fmod s 60)
    ++ "." ++ zpad 3 millis

/-- One cue block as written to the `.vtt` file:
`f"{start} --> {end}\n{segment.text}\n\n"`. -/
def renderCue (q : MergedCue) : String :=
  format_time q.global_start ++ " --> " ++ format_time q.global_end ++ "\n" ++ q.text ++ "\n\n"

/-- One transcript block as written to the `.txt` file:
`f"Slide {index}:\n{transcribed_text}\n\n"`. -/
def renderBlock (b : Nat × String) : String :=
  "Slide " ++ toString b.1 ++ ":\n" ++ b.2 ++ "\n\n"

/-- The cues one included clip emits when the running offset is `t`. -/
def clipCues (t : ℚ) (c : AudioClip) : List MergedCue :=
  c.segments.map (fun seg => { global_start := t + seg.start, global_end := t + seg.stop, text := seg.text })

/-- The state threaded through the `for index, audio_file in
enumerate(audio_files, 1)` loop of `transcribe_and_merge`: the contents of
the two open files, the running offset `current_time`, and the loop index.
`blocks` and `cues` mirror the `.txt` and `.vtt` writes in structured
form; `transcribed` records the clips passed to `model.transcribe`, in
call order. -/
structure MergeState where
  txt : String
  vtt : String
  blocks : List (Nat × String)
  cues : List MergedCue
  transcribed : List String
  current_time : ℚ
  index : Nat
deriving DecidableEq

/-- The body of the `transcribe_and_merge` loop for one candidate clip. -/
def mergeStep (st : MergeState) (c : AudioClip) : MergeState :=
  let st := { st with index := st.index + 1 }
  if !(is_valid_audio c) then st
  else if get_audio_duration c < 1 then st
  else
    let st := { st with transcribed := st.transcribed ++ [c.name] }
    if is_silent_transcription c.transcription then st
    else
      { st with
        txt := st.txt ++ renderBlock (st.index, c.transcription)
        blocks := st.blocks ++ [(st.index, c.transcription)]
        vtt := st.vtt ++ String.join ((clipCues st.current_time c).map renderCue)
        cues := st.cues ++ clipCues st.current_time c
        current_time := st.current_time + get_audio_duration c }

/-- The state when the two output files have just been opened and
`vtt_file.write("WEBVTT\n\n")` has run, before any clip is examined. -/
def initState : MergeState :=
  { txt := "", vtt := "WEBVTT\n\n", blocks := [], cues := [], transcribed := [],
    current_time := 0, index := 0 }

/-- `transcribe_and_merge`: the loop over the candidate clips. -/
def transcribe_and_merge (audio_files : List AudioClip) : MergeState :=
  audio_files.foldl mergeStep initState

/-- A clip passes every gate of the loop: decodable, duration at least
1.0 s, and a transcription that is non-empty after stripping. -/
def includedClip (c : AudioClip) : Bool :=
  if !(is_valid_audio c) then false
  else if get_audio_duration c < 1 then false
  else !(is_silent_transcription c.transcription)

/-- A clip passes the first two gates, so `model.transcribe` is invoked on it. -/
def reachesTranscription (c : AudioClip) : Bool :=
  if !(is_valid_audio c) then false
  else !(get_audio_duration c < 1 : Bool)

/-- The running offset just before the candidate at position `i` (0-based)
is processed: the `current_time` after the loop has consumed the first `i`
candidates. -/
def offsetBefore (clips : List AudioClip) (i : Nat) : ℚ :=
  (transcribe_and_merge (clips.take i)).current_time

/-- The external-collaborator invocations the loop body performs for one
clip, in program order: the ffmpeg decodability check, then (only if it
passed) the ffmpeg.probe duration probe, then (only if the duration gate
passed) the whisper transcription. -/
inductive ClipAction where
  | validate
  | probe
  | transcribe
deriving DecidableEq

/-- The invocation sequence of the loop body on one clip, read off
`transcribe_and_merge`. -/
def clipActions (c : AudioClip) : List ClipAction :=
  if !(is_valid_audio c) then [ClipAction.validate]
  else if get_audio_duration c < 1 then [ClipAction.validate, ClipAction.probe]
  else [ClipAction.validate, ClipAction.probe, ClipAction.transcribe]

end OneFile

namespace Transcribe

/-- `format_time` of `transcribe.py`: `ms = int((seconds % 1) * 1000)`,
`seconds = int(seconds)`, `hours = seconds // 3600`,
`minutes = (seconds % 3600) // 60`, `seconds = seconds % 60`, rendered as
`f"{hours:02}:{minutes:02}:{seconds:02}.{ms:03}"`. -/
def format_time (seconds : ℚ) : String :=
  let ms : ℤ := pyInt (pyMod1 seconds * 1000)
  let s : ℤ := pyInt seconds
  let hours : ℤ := Int.fdiv s 3600
  let minutes : ℤ := Int.fdiv (Int.fmod s 3600) 60
  zpad 2 hours ++ ":" ++ zpad 2 minutes ++ ":" ++ zpad 2 (Int.fmod s 60) ++ "." ++ zpad 3 ms

/-- The sibling text path derived in `transcribe_audio_files`:
`abs_path.replace('.m4a', '.txt')`. -/
def text_path (absPath : String) : String := pyReplace absPath extM4a extTxt

/-- The sibling cue path derived in `transcribe_audio_files`:
`abs_path.replace('.m4a', '.vtt')`. -/
def vtt_path (absPath : String) : String := pyReplace absPath extM4a extVtt

end Transcribe

/-- Cumulative duration of the included clips of a candidate list: the
value the running offset reaches after the list is consumed. -/
def includedDur (l : List AudioClip) : ℚ :=
  ((l.filter OneFile.includedClip).map OneFile.get_audio_duration).sum

/-- Spec-side inclusion gate, stated from the spec's words: a clip is
included exactly when it is decodable, its duration is at least 1.0
second, and its transcription text is non-empty after trimming
whitespace. -/
def specIncluded (c : AudioClip) : Bool :=
  c.decodable && decide (1 ≤ OneFile.get_audio_duration c) &&
    !(pyStrip c.transcription).isEmpty

/-- Spec-side timeline merge, stated from the spec's words: iterate the
candidates in order with a running `offset` starting at `0.0`; a clip that
is not decodable, too short, or transcribes to blank text is skipped
without advancing the offset; an included clip emits one cue per segment
at `offset + start` / `offset + end`, and only then is `offset` increased
by the clip's duration. -/
def specMergeCues (offset : ℚ) : List AudioClip → List MergedCue
  | [] => []
  | c :: rest =>
    if specIncluded c then
      (c.segments.map fun seg =>
        { global_start := offset + seg.start, global_end := offset + seg.stop,
          text := seg.text })
        ++ specMergeCues (offset + OneFile.get_audio_duration c) rest
    else specMergeCues offset rest

/-- The labelled transcript blocks produced from position `i` onward: one
block per included clip, labelled by the clip's 1-based position in the
candidate list (skipped candidates still consume a label). -/
def labelledBlocks (i : Nat) : List AudioClip → List (Nat × String)
  | [] => []
  | c :: rest =>
    if OneFile.includedClip c then (i, c.transcription) :: labelledBlocks (i + 1) rest
    else labelledBlocks (i + 1) rest

/-- Names of the clips on which the transcription engine is invoked. -/
def transcribedNames (l : List AudioClip) : List String :=
  (l.filter OneFile.reachesTranscription).map AudioClip.name

/-- Spec-side timestamp format, stated from the spec's words: render a
seconds value as `HH:MM:SS.mmm` where the milliseconds are the integer
truncation of the fractional-second component scaled by 1000, and hours,
minutes and seconds come from integer division of the whole-second part,
with no 24-hour wraparound (hours may exceed 23). -/
def specFormatTime (s : ℚ) : String :=
  let total : ℤ := ⌊s⌋
  let millis : ℤ := ⌊(s - (total : ℚ)) * 1000⌋
  zpad 2 (total / 3600) ++ ":" ++ zpad 2 (total / 60 % 60) ++ ":" ++ zpad 2 (total % 60)
    ++ "." ++ zpad 3 millis

/-- Fixture: decodable 2.0 s clip transcribing to "hello". -/
def clipHello : AudioClip :=
  { name := "a.m4a", decodable := true, probe := some 2, transcription := "hello",
    segments := [{ start := 0, stop := 2, text := "hello" }] }

/-- Fixture: decodable 0.5 s clip with a blank transcription (too short). -/
def clipSilent : AudioClip :=
  { name := "b.m4a", decodable := true, probe := some (mkRat 1 2), transcription := "",
    segments := [] }

/-- Fixture: decodable 3.0 s clip transcribing to "world". -/
def clipWorld : AudioClip :=
  { name := "c.m4a", decodable := true, probe := some 3, transcription := "world",
    segments := [{ start := 0, stop := 3, text := "world" }] }

/-- Fixture: decodable 4.0 s clip transcribing to "again". -/
def clipAgain : AudioClip :=
  { name := "d.m4a", decodable := true, probe := some 4, transcription := "again",
    segments := [] }

/-- Fixture: undecodable clip. -/
def clipBad : AudioClip :=
  { name := "bad.m4a", decodable := false, probe := some 2, transcription := "x",
    segments := [] }

/-- Fixture: decodable clip whose duration probe raises an exception. -/
def probeFailClip : AudioClip :=
  { name := "x.m4a", decodable := true, probe := none, transcription := "text",
    segments := [] }

/-- The spec's end-to-end scenario: `a.m4a` 2.0 s "hello", `b.m4a` 0.5 s
silent/too short, `c.m4a` 3.0 s "world". -/
def scenarioClips : List AudioClip := [clipHello, clipSilent, clipWorld]

/-- Three consecutive included clips with no skipped clip between them. -/
def c5Clips : List AudioClip := [clipHello, clipWorld, clipAgain]

def mp3Name : String := "ppt/media/a.mp3"
def mp3CorruptName : String := "ppt/media/b.mp3"
def mp3Entry : ZipEntry := { filename := mp3Name, corrupted := false }
def mp3CorruptEntry : ZipEntry := { filename := mp3CorruptName, corrupted := true }

/-- Fixture: three `.m4a` audio entries, the middle one corrupted. -/
def m4aEntries : List ZipEntry :=
  [ { filename := "ppt/media/media1.m4a", corrupted := false },
    { filename := "ppt/media/media2.m4a", corrupted := true },
    { filename := "ppt/media/media3.m4a", corrupted := false } ]

def trickyPath : String := "media/a.m4a.mp3"
def trickyTarget : String := "media/a.txt.mp3"
def plainMp3Path : String := "media/audio1.mp3"

theorem string_foldl_append (l : List String) :
    ∀ a : String, l.foldl (fun acc s => acc ++ s) a
      = a ++ l.foldl (fun acc s => acc ++ s) "" := by
  induction l with
  | nil => intro a; simp
  | cons s l ih =>
    intro a
    simp only [List.foldl]
    rw [ih (a ++ s), ih ("" ++ s), String.empty_append, String.append_assoc]

theorem join_cons (s : String) (l : List String) :
    String.join (s :: l) = s ++ String.join l := by
  show (s :: l).foldl (fun acc t => acc ++ t) "" = s ++ l.foldl (fun acc t => acc ++ t) ""
  simp only [List.foldl]
  rw [string_foldl_append l ("" ++ s), String.empty_append]

theorem join_append (l₁ l₂ : List String) :
    String.join (l₁ ++ l₂) = String.join l₁ ++ String.join l₂ := by
  induction l₁ with
  | nil => exact (String.empty_append _).symm
  | cons s l ih => rw [List.cons_append, join_cons, join_cons, ih, String.append_assoc]

/-- The code's three skip gates agree with the spec's inclusion predicate. -/
theorem includedClip_eq_spec (c : AudioClip) :
    OneFile.includedClip c = specIncluded c := by
  unfold OneFile.includedClip specIncluded OneFile.is_valid_audio
  by_cases hd : c.decodable = true
  · by_cases hlt : OneFile.get_audio_duration c < 1
    · simp [hd, hlt, not_le.2 hlt]
    · simp [hd, hlt, not_lt.1 hlt, OneFile.is_silent_transcription]
  · have hd' : c.decodable = false := Bool.eq_false_iff.2 hd
    simp [hd']

theorem includedDur_cons (c : AudioClip) (l : List AudioClip) :
    includedDur (c :: l)
      = (if OneFile.includedClip c then OneFile.get_audio_duration c else 0)
        + includedDur l := by
  by_cases h : OneFile.includedClip c = true
  · simp [includedDur, List.filter_cons, h]
  · simp [includedDur, List.filter_cons, h]

theorem transcribedNames_cons (c : AudioClip) (l : List AudioClip) :
    transcribedNames (c :: l)
      = (if OneFile.reachesTranscription c then [c.name] else []) ++ transcribedNames l := by
  by_cases h : OneFile.reachesTranscription c = true
  · simp [transcribedNames, List.filter_cons, h]
  · simp [transcribedNames, List.filter_cons, h]

theorem reaches_iff (c : AudioClip) :
    OneFile.reachesTranscription c = true
      ↔ OneFile.is_valid_audio c = true ∧ ¬(OneFile.get_audio_duration c < 1) := by
  unfold OneFile.reachesTranscription
  by_cases hv : OneFile.is_valid_audio c = true <;> simp [hv]

theorem included_iff (c : AudioClip) :
    OneFile.includedClip c = true
      ↔ OneFile.is_valid_audio c = true ∧ ¬(OneFile.get_audio_duration c < 1)
        ∧ OneFile.is_silent_transcription c.transcription = false := by
  unfold OneFile.includedClip
  by_cases hv : OneFile.is_valid_audio c = true <;>
    by_cases hlt : OneFile.get_audio_duration c < 1 <;>
      simp [hv, hlt]

theorem included_imp_reaches (c : AudioClip) (h : OneFile.includedClip c = true) :
    OneFile.reachesTranscription c = true :=
  (reaches_iff c).2 ⟨((included_iff c).1 h).1, ((included_iff c).1 h).2.1⟩

theorem mergeStep_not_reaches (st : OneFile.MergeState) (c : AudioClip)
    (h : OneFile.reachesTranscription c = false) :
    OneFile.mergeStep st c = { st with index := st.index + 1 } := by
  unfold OneFile.mergeStep
  unfold OneFile.reachesTranscription at h
  by_cases hv : OneFile.is_valid_audio c = true
  · simp [hv] at h
    simp [hv, h]
  · have hv' : OneFile.is_valid_audio c = false := Bool.eq_false_iff.2 hv
    simp [hv']

theorem mergeStep_silent (st : OneFile.MergeState) (c : AudioClip)
    (h : OneFile.reachesTranscription c = true)
    (hs : OneFile.is_silent_transcription c.transcription = true) :
    OneFile.mergeStep st c
      = { st with index := st.index + 1, transcribed := st.transcribed ++ [c.name] } := by
  obtain ⟨hv, hlt⟩ := (reaches_iff c).1 h
  unfold OneFile.mergeStep
  simp [hv, hlt, hs]

theorem mergeStep_included (st : OneFile.MergeState) (c : AudioClip)
    (h : OneFile.includedClip c = true) :
    OneFile.mergeStep st c =
      { txt := st.txt ++ OneFile.renderBlock (st.index + 1, c.transcription),
        vtt := st.vtt ++ String.join ((OneFile.clipCues st.current_time c).map OneFile.renderCue),
        blocks := st.blocks ++ [(st.index + 1, c.transcription)],
        cues := st.cues ++ OneFile.clipCues st.current_time c,
        transcribed := st.transcribed ++ [c.name],
        current_time := st.current_time + OneFile.get_audio_duration c,
        index := st.index + 1 } := by
  obtain ⟨hv, hlt, hs⟩ := (included_iff c).1 h
  unfold OneFile.mergeStep
  simp [hv, hlt, hs]

/-- Full characterisation of the `transcribe_and_merge` loop from an
arbitrary intermediate state. -/
theorem foldl_mergeStep_eq (l : List AudioClip) :
    ∀ st : OneFile.MergeState,
    l.foldl OneFile.mergeStep st =
      { txt := st.txt ++ String.join ((labelledBlocks (st.index + 1) l).map OneFile.renderBlock),
        vtt := st.vtt ++ String.join ((specMergeCues st.current_time l).map OneFile.renderCue),
        blocks := st.blocks ++ labelledBlocks (st.index + 1) l,
        cues := st.cues ++ specMergeCues st.current_time l,
        transcribed := st.transcribed ++ transcribedNames l,
        current_time := st.current_time + includedDur l,
        index := st.index + l.length } := by
  induction l with
  | nil =>
    intro st
    simp [labelledBlocks, specMergeCues, transcribedNames, includedDur, String.join]
  | cons c rest ih =>
    intro st
    rw [List.foldl_cons]
    by_cases hr : OneFile.reachesTranscription c = true
    · by_cases hs : OneFile.is_silent_transcription c.transcription = true
      · have hni : OneFile.includedClip c = false := by
          cases h : OneFile.includedClip c
          · rfl
          · exact absurd ((included_iff c).1 h).2.2 (by simp [hs])
        rw [mergeStep_silent st c hr hs, ih]
        have hspec : specIncluded c = false := by rw [← includedClip_eq_spec]; exact hni
        simp [labelledBlocks, specMergeCues, hni, hspec, transcribedNames_cons, hr,
          includedDur_cons, List.append_assoc, String.append_assoc, add_assoc]
        omega
      · have hinc : OneFile.includedClip c = true := by
          have hs' : OneFile.is_silent_transcription c.transcription = false :=
            Bool.eq_false_iff.2 hs
          exact (included_iff c).2 ⟨((reaches_iff c).1 hr).1, ((reaches_iff c).1 hr).2, hs'⟩
        rw [mergeStep_included st c hinc, ih]
        have hspec : specIncluded c = true := by rw [← includedClip_eq_spec]; exact hinc
        simp [labelledBlocks, specMergeCues, hinc, hspec, transcribedNames_cons, hr,
          includedDur_cons, OneFile.clipCues, join_cons, join_append, List.append_assoc,
          String.append_assoc, add_assoc]
        omega
    · have hr' : OneFile.reachesTranscription c = false := Bool.eq_false_iff.2 hr
      have hni : OneFile.includedClip c = false := by
        cases h : OneFile.includedClip c
        · rfl
        · exact absurd (included_imp_reaches c h) (by simp [hr'])
      rw [mergeStep_not_reaches st c hr', ih]
      have hspec : specIncluded c = false := by rw [← includedClip_eq_spec]; exact hni
      simp [labelledBlocks, specMergeCues, hni, hspec, transcribedNames_cons, hr',
        includedDur_cons, List.append_assoc, String.append_assoc, add_assoc]
      omega

theorem merge_cues_eq (l : List AudioClip) :
    (OneFile.transcribe_and_merge l).cues = specMergeCues 0 l := by
  unfold OneFile.transcribe_and_merge
  rw [foldl_mergeStep_eq]
  simp [OneFile.initState]

theorem merge_time_eq (l : List AudioClip) :
    (OneFile.transcribe_and_merge l).current_time = includedDur l := by
  unfold OneFile.transcribe_and_merge
  rw [foldl_mergeStep_eq]
  simp [OneFile.initState]

theorem merge_blocks_eq (l : List AudioClip) :
    (OneFile.transcribe_and_merge l).blocks = labelledBlocks 1 l := by
  unfold OneFile.transcribe_and_merge
  rw [foldl_mergeStep_eq]
  simp [OneFile.initState]

theorem merge_txt_eq (l : List AudioClip) :
    (OneFile.transcribe_and_merge l).txt
      = String.join ((labelledBlocks 1 l).map OneFile.renderBlock) := by
  unfold OneFile.transcribe_and_merge
  rw [foldl_mergeStep_eq]
  simp [OneFile.initState]

theorem merge_vtt_eq (l : List AudioClip) :
    (OneFile.transcribe_and_merge l).vtt
      = "WEBVTT\n\n" ++ String.join ((specMergeCues 0 l).map OneFile.renderCue) := by
  unfold OneFile.transcribe_and_merge
  rw [foldl_mergeStep_eq]
  simp [OneFile.initState]

theorem merge_transcribed_eq (l : List AudioClip) :
    (OneFile.transcribe_and_merge l).transcribed = transcribedNames l := by
  unfold OneFile.transcribe_and_merge
  rw [foldl_mergeStep_eq]
  simp [OneFile.initState]

theorem includedDur_append (l₁ l₂ : List AudioClip) :
    includedDur (l₁ ++ l₂) = includedDur l₁ + includedDur l₂ := by
  simp [includedDur, List.filter_append]

theorem includedDur_nonneg (l : List AudioClip) : 0 ≤ includedDur l := by
  induction l with
  | nil => simp [includedDur]
  | cons c rest ih =>
    rw [includedDur_cons]
    by_cases h : OneFile.includedClip c = true
    · have h1 : (1 : ℚ) ≤ OneFile.get_audio_duration c := not_lt.1 ((included_iff c).1 h).2.1
      rw [if_pos h]
      linarith
    · have h' : OneFile.includedClip c = false := Bool.eq_false_iff.2 h
      rw [h']
      simpa using ih

/-- A nonempty included sublist contributes strictly positive duration;
an all-excluded sublist contributes zero. -/
theorem includedDur_pos_of_included (l : List AudioClip) (c : AudioClip)
    (hc : c ∈ l) (hinc : OneFile.includedClip c = true) : 1 ≤ includedDur l := by
  induction l with
  | nil => cases hc
  | cons d rest ih =>
    rw [includedDur_cons]
    rcases List.mem_cons.1 hc with rfl | hmem
    · rw [if_pos hinc]
      have h1 : (1 : ℚ) ≤ OneFile.get_audio_duration c := not_lt.1 ((included_iff c).1 hinc).2.1
      have h0 := includedDur_nonneg rest
      linarith
    · have := ih hmem
      by_cases h : OneFile.includedClip d = true
      · have h1 : (1 : ℚ) ≤ OneFile.get_audio_duration d := not_lt.1 ((included_iff d).1 h).2.1
        rw [if_pos h]
        linarith
      · rw [if_neg h]
        linarith

theorem includedDur_eq_zero_of_none (l : List AudioClip)
    (h : ∀ c ∈ l, OneFile.includedClip c = false) : includedDur l = 0 := by
  induction l with
  | nil => simp [includedDur]
  | cons d rest ih =>
    rw [includedDur_cons, h d (List.mem_cons_self d rest)]
    simpa using ih fun c hc => h c (List.mem_cons_of_mem d hc)

theorem specMergeCues_append (l₁ l₂ : List AudioClip) :
    ∀ t : ℚ, specMergeCues t (l₁ ++ l₂)
      = specMergeCues t l₁ ++ specMergeCues (t + includedDur l₁) l₂ := by
  induction l₁ with
  | nil => intro t; simp [specMergeCues, includedDur]
  | cons c rest ih =>
    intro t
    by_cases h : specIncluded c = true
    · have hc : OneFile.includedClip c = true := by rw [includedClip_eq_spec]; exact h
      simp [specMergeCues, h, ih, includedDur_cons, hc, add_assoc, List.append_assoc]
    · have h' : specIncluded c = false := Bool.eq_false_iff.2 h
      have hc : OneFile.includedClip c = false := by rw [includedClip_eq_spec]; exact h'
      simp [specMergeCues, h', ih, includedDur_cons, hc]

theorem specMergeCues_eq_nil (l : List AudioClip) (t : ℚ)
    (h : ∀ c ∈ l, OneFile.includedClip c = false) : specMergeCues t l = [] := by
  induction l generalizing t with
  | nil => rfl
  | cons d rest ih =>
    have hd : specIncluded d = false := by
      rw [← includedClip_eq_spec]; exact h d (List.mem_cons_self d rest)
    simp [specMergeCues, hd]
    exact ih t fun c hc => h c (List.mem_cons_of_mem d hc)

theorem labelledBlocks_eq_nil (l : List AudioClip) (i : Nat)
    (h : ∀ c ∈ l, OneFile.includedClip c = false) : labelledBlocks i l = [] := by
  induction l generalizing i with
  | nil => rfl
  | cons d rest ih =>
    simp [labelledBlocks, h d (List.mem_cons_self d rest)]
    exact ih (i + 1) fun c hc => h c (List.mem_cons_of_mem d hc)

theorem labelledBlocks_length (l : List AudioClip) :
    ∀ i : Nat, (labelledBlocks i l).length = (l.filter OneFile.includedClip).length := by
  induction l with
  | nil => intro i; rfl
  | cons c rest ih =>
    intro i
    by_cases h : OneFile.includedClip c = true
    · simp [labelledBlocks, h, List.filter_cons, ih]
    · have h' : OneFile.includedClip c = false := Bool.eq_false_iff.2 h
      simp [labelledBlocks, h', List.filter_cons, ih]

/-- `offsetBefore` is the cumulative duration of the included clips among
the first `i` candidates. -/
theorem offsetBefore_eq (clips : List AudioClip) (i : Nat) :
    OneFile.offsetBefore clips i = includedDur (clips.take i) := by
  unfold OneFile.offsetBefore
  exact merge_time_eq _

theorem lexLe_cons_iff (x y : Char) (xs ys : List Char) :
    lexLe (x :: xs) (y :: ys) = true
      ↔ x.toNat < y.toNat ∨ (x.toNat = y.toNat ∧ lexLe xs ys = true) := by
  have e : lexLe (x :: xs) (y :: ys)
      = if charLt x y then true else if charLt y x then false else lexLe xs ys := rfl
  rw [e]
  unfold charLt
  by_cases h1 : x.toNat < y.toNat
  · simp [h1]
  · by_cases h2 : y.toNat < x.toNat
    · simp [h1, h2]
      omega
    · have hxy : x.toNat = y.toNat := by omega
      simp [h1, h2, hxy]

theorem lexLe_total (a : List Char) : ∀ b, lexLe a b = true ∨ lexLe b a = true := by
  induction a with
  | nil => intro b; left; rfl
  | cons x xs ih =>
    intro b
    cases b with
    | nil => right; rfl
    | cons y ys =>
      rcases Nat.lt_trichotomy x.toNat y.toNat with h | h | h
      · left; exact (lexLe_cons_iff x y xs ys).2 (Or.inl h)
      · rcases ih ys with h2 | h2
        · left; exact (lexLe_cons_iff x y xs ys).2 (Or.inr ⟨h, h2⟩)
        · right; exact (lexLe_cons_iff y x ys xs).2 (Or.inr ⟨h.symm, h2⟩)
      · right; exact (lexLe_cons_iff y x ys xs).2 (Or.inl h)

theorem lexLe_trans : ∀ {a b c : List Char},
    lexLe a b = true → lexLe b c = true → lexLe a c = true
  | [], _, _, _, _ => rfl
  | _ :: _, [], _, h1, _ => by simp [lexLe] at h1
  | _ :: _, _ :: _, [], _, h2 => by simp [lexLe] at h2
  | x :: xs, y :: ys, z :: zs, h1, h2 => by
    rcases (lexLe_cons_iff x y xs ys).1 h1 with hx | ⟨hx, hx2⟩ <;>
      rcases (lexLe_cons_iff y z ys zs).1 h2 with hy | ⟨hy, hy2⟩
    · exact (lexLe_cons_iff x z xs zs).2 (Or.inl (hx.trans hy))
    · exact (lexLe_cons_iff x z xs zs).2 (Or.inl (by omega))
    · exact (lexLe_cons_iff x z xs zs).2 (Or.inl (by omega))
    · exact (lexLe_cons_iff x z xs zs).2 (Or.inr ⟨by omega, lexLe_trans hx2 hy2⟩)

instance : IsTotal String fileLe := ⟨fun a b => lexLe_total a.toList b.toList⟩

instance : IsTrans String fileLe := ⟨fun _ _ _ h1 h2 => lexLe_trans h1 h2⟩

theorem extract_audio_files_perm (entries : List ZipEntry) :
    ((OneFile.extract_audio_from_pptx entries).audio_files).Perm
      (((OneFile.extract_audio_from_pptx entries).extracted).filter isM4aCandidate) :=
  List.perm_insertionSort fileLe _

theorem extract_audio_files_sorted (entries : List ZipEntry) :
    List.Sorted fileLe (OneFile.extract_audio_from_pptx entries).audio_files :=
  List.sorted_insertionSort fileLe _

theorem extract_mem_audio_files (entries : List ZipEntry) (name : String) :
    name ∈ (OneFile.extract_audio_from_pptx entries).audio_files
      ↔ name ∈ (OneFile.extract_audio_from_pptx entries).extracted
          ∧ isM4aCandidate name = true := by
  rw [(extract_audio_files_perm entries).mem_iff]
  simp [List.mem_filter]

theorem pyInt_of_nonneg (q : ℚ) (h : 0 ≤ q) : pyInt q = ⌊q⌋ := if_pos h

theorem pyMod1_nonneg (q : ℚ) : 0 ≤ pyMod1 q := sub_nonneg.2 (Int.floor_le q)

theorem format_time_eq_spec (s : ℚ) (h : 0 ≤ s) :
    OneFile.format_time s = specFormatTime s := by
  have hm : 0 ≤ (s - (⌊s⌋ : ℚ)) * 1000 := mul_nonneg (pyMod1_nonneg s) (by norm_num)
  simp only [OneFile.format_time, specFormatTime, pyMod1]
  rw [pyInt_of_nonneg _ h, pyInt_of_nonneg _ hm,
    Int.fdiv_eq_ediv _ (by norm_num : (0:ℤ) ≤ 60),
    Int.fdiv_eq_ediv _ (by norm_num : (0:ℤ) ≤ 60),
    Int.fmod_eq_emod _ (by norm_num : (0:ℤ) ≤ 60),
    Int.fmod_eq_emod _ (by norm_num : (0:ℤ) ≤ 60)]
  have h36 : ⌊s⌋ / 60 / 60 = ⌊s⌋ / 3600 := by omega
  rw [h36]

theorem format_time_eq_transcribe (s : ℚ) (h : 0 ≤ s) :
    OneFile.format_time s = Transcribe.format_time s := by
  have h60 : (0:ℤ) ≤ 60 := by norm_num
  have h3600 : (0:ℤ) ≤ 3600 := by norm_num
  simp only [OneFile.format_time, Transcribe.format_time]
  rw [pyInt_of_nonneg _ h]
  simp only [Int.fdiv_eq_ediv _ h60, Int.fdiv_eq_ediv _ h3600,
    Int.fmod_eq_emod _ h60, Int.fmod_eq_emod _ h3600]
  have h36 : ⌊s⌋ / 60 / 60 = ⌊s⌋ / 3600 := by omega
  have hmin : (⌊s⌋ / 60) % 60 = (⌊s⌋ % 3600) / 60 := by omega
  rw [h36, hmin]

/-- `str.replace` leaves a string unchanged when the pattern occurs
nowhere in it. -/
theorem replaceAux_of_no_occurrence (o : Char) (os new : List Char) :
    ∀ (l : List Char) (fuel : Nat), l.length ≤ fuel
      → ¬((o :: os) <:+: l) → replaceAux o os new fuel l = l
  | [], fuel, _, _ => by cases fuel <;> rfl
  | c :: rest, 0, hf, _ => by simp at hf
  | c :: rest, fuel + 1, hf, h => by
    have hp : ¬(List.isPrefixOf (o :: os) (c :: rest) = true) := by
      intro hpre
      exact h (List.isPrefixOf_iff_prefix.1 hpre).isInfix
    have hrest : ¬((o :: os) <:+: rest) := fun hinf => h (List.infix_cons hinf)
    have hlen : rest.length ≤ fuel := by simp at hf; omega
    simp only [replaceAux]
    rw [if_neg hp, replaceAux_of_no_occurrence o os new rest fuel hlen hrest]

theorem pyReplace_of_no_occurrence (s old new : String) (hne : old.toList ≠ [])
    (h : ¬(old.toList <:+: s.toList)) : pyReplace s old new = s := by
  unfold pyReplace
  cases he : old.toList with
  | nil => exact absurd he hne
  | cons o os =>
    show String.mk (replaceAux o os new.toList s.toList.length s.toList) = s
    rw [replaceAux_of_no_occurrence o os new.toList s.toList (s.toList.length)
      (Nat.le_refl _) (he ▸ h)]
    rfl

/-- C3: the timeline merge processes the candidates in extractor order
with an offset initialised to 0.0; undecodable, too-short and
blank-transcription clips are skipped without advancing the offset; an
included clip emits one cue per segment at `offset + start` /
`offset + end` and only afterwards advances the offset by its duration.
The loop's cue output and final offset coincide with the spec-side merge. -/
theorem c3_timeline_merge (clips : List AudioClip) :
    (OneFile.transcribe_and_merge clips).cues = specMergeCues 0 clips
      ∧ (OneFile.transcribe_and_merge clips).current_time = includedDur clips :=
  ⟨merge_cues_eq clips, merge_time_eq clips⟩

/-- C2 counterexample: in the spec's three-clip scenario (clip 2 excluded
as too short) the two emitted blocks are labelled 1 and 3 — the candidate
positions — not 1 and 2 as the claim requires. -/
theorem c2_counterexample :
    (OneFile.transcribe_and_merge scenarioClips).blocks.map Prod.fst = [1, 3]
      ∧ ¬((OneFile.transcribe_and_merge scenarioClips).blocks.map Prod.fst = [1, 2]) := by
  refine ⟨by decide, by decide⟩

/-- C2 amended: the plain-text artifact has exactly one block per included
clip, but each block is labelled by the clip's 1-based position in the
candidate list (skipped candidates still consume a label), not by its
position among the included clips. -/
theorem c2_amended_block_labels (clips : List AudioClip) :
    (OneFile.transcribe_and_merge clips).blocks = labelledBlocks 1 clips
      ∧ (OneFile.transcribe_and_merge clips).txt
          = String.join ((labelledBlocks 1 clips).map OneFile.renderBlock)
      ∧ (labelledBlocks 1 clips).length = (clips.filter OneFile.includedClip).length :=
  ⟨merge_blocks_eq clips, merge_txt_eq clips, labelledBlocks_length clips 1⟩

/-- C4: `format_time` renders seconds as `HH:MM:SS.mmm` with the
milliseconds the integer truncation of the fractional part scaled by 1000
and no 24-hour wraparound: on every non-negative timestamp it agrees with
the spec-side format and with the `transcribe.py` variant, and it maps
0.0 to "00:00:00.000", 3661.5 to "01:01:01.500" and 59.999 to
"00:00:59.999". -/
theorem c4_format_time :
    (∀ s : ℚ, 0 ≤ s →
      OneFile.format_time s = specFormatTime s
        ∧ OneFile.format_time s = Transcribe.format_time s)
    ∧ OneFile.format_time 0 = "00:00:00.000"
    ∧ OneFile.format_time (mkRat 7323 2) = "01:01:01.500"
    ∧ OneFile.format_time (mkRat 59999 1000) = "00:00:59.999" := by
  refine ⟨fun s hs => ⟨format_time_eq_spec s hs, format_time_eq_transcribe s hs⟩, ?_, ?_, ?_⟩
  · simp only [OneFile.format_time, pyMod1, pyInt, Rat.sub_def', Rat.mul_def]
    norm_num
    decide
  · simp only [OneFile.format_time, pyMod1, pyInt, Rat.sub_def', Rat.mul_def]
    norm_num
    decide
  · simp only [OneFile.format_time, pyMod1, pyInt, Rat.sub_def', Rat.mul_def]
    norm_num
    decide

/-- Witness for C4 at the concrete timestamp 3661.5 seconds. -/
theorem c4_format_time_witness :
    (0 ≤ (mkRat 7323 2 : ℚ))
      ∧ OneFile.format_time (mkRat 7323 2) = specFormatTime (mkRat 7323 2) :=
  ⟨by decide, (c4_format_time.1 (mkRat 7323 2) (by decide)).1⟩

/-- C6: when the duration probe raises, `get_audio_duration` falls back to
0.0, so the clip fails the `duration < 1.0` gate: it is skipped, its cues
are never emitted, the offset is not advanced, and the rest of the
document is processed exactly as if the clip were absent (labels aside). -/
theorem c6_probe_fallback (c : AudioClip) (st : OneFile.MergeState)
    (before after : List AudioClip) (h : c.probe = none) :
    OneFile.get_audio_duration c = 0
      ∧ OneFile.includedClip c = false
      ∧ OneFile.mergeStep st c = { st with index := st.index + 1 }
      ∧ (OneFile.transcribe_and_merge (before ++ c :: after)).cues
          = (OneFile.transcribe_and_merge (before ++ after)).cues
      ∧ (OneFile.transcribe_and_merge (before ++ c :: after)).current_time
          = (OneFile.transcribe_and_merge (before ++ after)).current_time := by
  have hdur : OneFile.get_audio_duration c = 0 := by
    unfold OneFile.get_audio_duration
    rw [h]
  have hlt : OneFile.get_audio_duration c < 1 := by rw [hdur]; norm_num
  have hr : OneFile.reachesTranscription c = false := by
    unfold OneFile.reachesTranscription
    by_cases hv : OneFile.is_valid_audio c = true
    · simp [hv, hlt]
    · simp [Bool.eq_false_iff.2 hv]
  have hni : OneFile.includedClip c = false := by
    cases hx : OneFile.includedClip c
    · rfl
    · exact absurd (included_imp_reaches c hx) (by simp [hr])
  have hspec : specIncluded c = false := by rw [← includedClip_eq_spec]; exact hni
  refine ⟨hdur, hni, mergeStep_not_reaches st c hr, ?_, ?_⟩
  · rw [merge_cues_eq, merge_cues_eq, specMergeCues_append, specMergeCues_append]
    congr 1
    show specMergeCues _ (c :: after) = specMergeCues _ after
    simp [specMergeCues, hspec]
  · rw [merge_time_eq, merge_time_eq, includedDur_append, includedDur_append]
    simp [includedDur_cons, hni]

/-- Witness for C6: a decodable clip whose probe fails. -/
theorem c6_witness :
    probeFailClip.probe = none
      ∧ OneFile.get_audio_duration probeFailClip = 0
      ∧ OneFile.includedClip probeFailClip = false :=
  ⟨by decide,
    (c6_probe_fallback probeFailClip OneFile.initState [] [] (by decide)).1,
    (c6_probe_fallback probeFailClip OneFile.initState [] [] (by decide)).2.1⟩

/-- C8: the decodability check is the first collaborator invocation of the
loop body; the duration probe runs only after it passes, and a clip the
decoder rejects is never handed to the transcription engine — every
transcribed clip of every run is decodable with duration at least 1.0 s. -/
theorem c8_validation_first (c : AudioClip) (clips : List AudioClip) :
    (OneFile.clipActions c).head? = some OneFile.ClipAction.validate
      ∧ (OneFile.ClipAction.probe ∈ OneFile.clipActions c → OneFile.is_valid_audio c = true)
      ∧ (OneFile.ClipAction.transcribe ∈ OneFile.clipActions c
          ↔ OneFile.is_valid_audio c = true ∧ ¬(OneFile.get_audio_duration c < 1))
      ∧ (OneFile.is_valid_audio c = false
          → OneFile.clipActions c = [OneFile.ClipAction.validate])
      ∧ (∀ name ∈ (OneFile.transcribe_and_merge clips).transcribed,
          ∃ cc ∈ clips, cc.name = name ∧ OneFile.is_valid_audio cc = true
            ∧ ¬(OneFile.get_audio_duration cc < 1)) := by
  refine ⟨?_, ?_, ?_, ?_, ?_⟩
  · unfold OneFile.clipActions
    by_cases hv : OneFile.is_valid_audio c = true
    · by_cases hlt : OneFile.get_audio_duration c < 1 <;> simp [hv, hlt]
    · simp [Bool.eq_false_iff.2 hv]
  · unfold OneFile.clipActions
    by_cases hv : OneFile.is_valid_audio c = true
    · intro _; exact hv
    · simp [Bool.eq_false_iff.2 hv]
  · unfold OneFile.clipActions
    by_cases hv : OneFile.is_valid_audio c = true
    · by_cases hlt : OneFile.get_audio_duration c < 1 <;> simp [hv, hlt]
    · simp [Bool.eq_false_iff.2 hv]
  · intro hv
    unfold OneFile.clipActions
    simp [hv]
  · intro name hname
    rw [merge_transcribed_eq] at hname
    unfold transcribedNames at hname
    obtain ⟨cc, hcc, rfl⟩ := List.mem_map.1 hname
    obtain ⟨hmem, hre⟩ := List.mem_filter.1 hcc
    exact ⟨cc, hmem, rfl, ((reaches_iff cc).1 hre).1, ((reaches_iff cc).1 hre).2⟩

/-- Witness for C8: an undecodable clip's action list stops after the
check, and the transcribed clip of a one-clip run satisfies the gates. -/
theorem c8_witness :
    OneFile.is_valid_audio clipBad = false
      ∧ OneFile.clipActions clipBad = [OneFile.ClipAction.validate]
      ∧ ("a.m4a" ∈ (OneFile.transcribe_and_merge [clipHello]).transcribed)
      ∧ (∃ cc ∈ [clipHello], cc.name = "a.m4a" ∧ OneFile.is_valid_audio cc = true
          ∧ ¬(OneFile.get_audio_duration cc < 1)) :=
  ⟨by decide,
    (c8_validation_first clipBad []).2.2.2.1 (by decide),
    by decide,
    (c8_validation_first clipHello [clipHello]).2.2.2.2 "a.m4a" (by decide)⟩

/-- C10: for every non-empty candidate list both artifacts are produced,
the `WEBVTT` header and blank line are written before any clip is
examined, and a document whose candidates are all excluded ends with a
cue artifact holding exactly the header and an empty text artifact. -/
theorem c10_artifacts_unconditional (clips : List AudioClip) (_hne : clips ≠ []) :
    (∃ rest, (OneFile.transcribe_and_merge clips).vtt = "WEBVTT\n\n" ++ rest)
      ∧ ((∀ c ∈ clips, OneFile.includedClip c = false) →
          (OneFile.transcribe_and_merge clips).txt = ""
            ∧ (OneFile.transcribe_and_merge clips).vtt = "WEBVTT\n\n") := by
  constructor
  · exact ⟨_, merge_vtt_eq clips⟩
  · intro hall
    constructor
    · rw [merge_txt_eq, labelledBlocks_eq_nil clips 1 hall]
      rfl
    · rw [merge_vtt_eq, specMergeCues_eq_nil clips 0 hall]
      exact String.append_empty _

/-- Witness for C10: one candidate, excluded as too short and silent. -/
theorem c10_witness :
    ([clipSilent] ≠ ([] : List AudioClip))
      ∧ (∀ c ∈ [clipSilent], OneFile.includedClip c = false)
      ∧ (OneFile.transcribe_and_merge [clipSilent]).txt = ""
      ∧ (OneFile.transcribe_and_merge [clipSilent]).vtt = "WEBVTT\n\n" := by
  refine ⟨by decide, by decide, ?_, ?_⟩
  · exact ((c10_artifacts_unconditional [clipSilent] (by decide)).2 (by decide)).1
  · exact ((c10_artifacts_unconditional [clipSilent] (by decide)).2 (by decide)).2

/-- C1 counterexample: a container holding one intact `.mp3` audio entry.
The entry matches the selection predicate and is extracted, but the
candidate list is empty, because candidates are built from the glob
`*.m4a` alone — so an extracted audio entry of a supported extension is
omitted. -/
theorem c1_counterexample :
    isAudioEntryName mp3Name = true
      ∧ (OneFile.extract_audio_from_pptx [mp3Entry]).extracted = [mp3Name]
      ∧ (OneFile.extract_audio_from_pptx [mp3Entry]).audio_files = [] :=
  ⟨by decide, by decide, by decide⟩

/-- C1 amended: the candidate list consists of exactly the successfully
extracted entries that lie directly in the media folder with extension
`.m4a`, in lexicographic filename order; extracted `.mp3` and `.wav`
entries are omitted. -/
theorem c1_amended_candidates (entries : List ZipEntry) (name : String) :
    (name ∈ (OneFile.extract_audio_from_pptx entries).audio_files
      ↔ name ∈ (OneFile.extract_audio_from_pptx entries).extracted
          ∧ isM4aCandidate name = true)
      ∧ List.Sorted fileLe (OneFile.extract_audio_from_pptx entries).audio_files
      ∧ ((OneFile.extract_audio_from_pptx entries).audio_files).Perm
          (((OneFile.extract_audio_from_pptx entries).extracted).filter isM4aCandidate) :=
  ⟨extract_mem_audio_files entries name, extract_audio_files_sorted entries,
    extract_audio_files_perm entries⟩

theorem length_filter_not_add {α : Type} (p : α → Bool) (l : List α) :
    (l.filter (fun a => !(p a))).length + (l.filter p).length = l.length := by
  induction l with
  | nil => rfl
  | cons a t ih =>
    by_cases h : p a = true <;> simp [List.filter_cons, h] <;> omega

/-- C7 counterexample: a container with two audio entries (`.mp3`), one of
them corrupted.  The corrupted entry is tolerated and recorded and the
other entry is extracted, but the candidate list has 0 entries, not
N − 1 = 1, because candidates are restricted to `*.m4a`. -/
theorem c7_counterexample :
    isAudioEntryName mp3Name = true
      ∧ isAudioEntryName mp3CorruptName = true
      ∧ (OneFile.extract_audio_from_pptx [mp3Entry, mp3CorruptEntry]).corrupted_files
          = [mp3CorruptName]
      ∧ (OneFile.extract_audio_from_pptx [mp3Entry, mp3CorruptEntry]).extracted = [mp3Name]
      ∧ ¬((OneFile.extract_audio_from_pptx [mp3Entry, mp3CorruptEntry]).audio_files.length
            = 1) :=
  ⟨by decide, by decide, by decide, by decide, by decide⟩

/-- C7 amended: extraction is per-entry and total — corrupted audio
entries are recorded in order, candidates come only from successfully
extracted entries, a recorded corrupted entry never appears among the
candidates (distinct entry names), and a container whose audio entries
are all direct `.m4a` media entries with exactly one corrupted yields
N − 1 candidates. -/
theorem c7_amended_per_entry (entries : List ZipEntry) :
    ((OneFile.extract_audio_from_pptx entries).corrupted_files
        = (entries.filter (fun e => isAudioEntryName e.filename && e.corrupted)).map
            (fun e => e.filename))
      ∧ (∀ name ∈ (OneFile.extract_audio_from_pptx entries).audio_files,
          name ∈ (OneFile.extract_audio_from_pptx entries).extracted)
      ∧ ((entries.map (fun e => e.filename)).Nodup →
          ∀ name ∈ (OneFile.extract_audio_from_pptx entries).corrupted_files,
            name ∉ (OneFile.extract_audio_from_pptx entries).audio_files)
      ∧ ((∀ e ∈ entries, isAudioEntryName e.filename = true
            ∧ isM4aCandidate e.filename = true)
          → (entries.filter (fun e => e.corrupted)).length = 1
          → (OneFile.extract_audio_from_pptx entries).audio_files.length
              = entries.length - 1) := by
  refine ⟨?_, ?_, ?_, ?_⟩
  · show ((entries.filter (fun e => isAudioEntryName e.filename)).filter
        (fun e => e.corrupted)).map (fun e => e.filename) = _
    rw [List.filter_filter]
    congr 1
    apply List.filter_congr
    intro e _
    exact Bool.and_comm e.corrupted (isAudioEntryName e.filename)
  · intro name h
    exact ((extract_mem_audio_files entries name).1 h).1
  · intro hnodup name hc hmem
    have hex : name ∈ (OneFile.extract_audio_from_pptx entries).extracted :=
      ((extract_mem_audio_files entries name).1 hmem).1
    obtain ⟨e1, he1f, he1n⟩ := List.mem_map.1 hc
    obtain ⟨e1m, he1p⟩ := List.mem_filter.1 (List.mem_filter.1 he1f).1
    have he1c : e1.corrupted = true := by
      simpa using (List.mem_filter.1 he1f).2
    obtain ⟨e2, he2f, he2n⟩ := List.mem_map.1 hex
    obtain ⟨e2m, he2p⟩ := List.mem_filter.1 he2f
    have he2m' : e2 ∈ entries := (List.mem_filter.1 e2m).1
    have he2c : e2.corrupted = false := by
      simpa using he2p
    have hee : e1 = e2 :=
      List.inj_on_of_nodup_map hnodup e1m he2m' (by rw [he1n, he2n])
    rw [hee, he2c] at he1c
    exact Bool.false_ne_true he1c
  · intro hall hone
    have hperm := extract_audio_files_perm entries
    rw [hperm.length_eq]
    show ((((entries.filter (fun e => isAudioEntryName e.filename)).filter
        (fun e => !e.corrupted)).map (fun e => e.filename)).filter isM4aCandidate).length
        = entries.length - 1
    have hau : entries.filter (fun e => isAudioEntryName e.filename) = entries := by
      apply List.filter_eq_self.2
      intro e he
      exact (hall e he).1
    rw [hau]
    have hm4 : ((entries.filter (fun e => !e.corrupted)).map
        (fun e => e.filename)).filter isM4aCandidate
        = (entries.filter (fun e => !e.corrupted)).map (fun e => e.filename) := by
      apply List.filter_eq_self.2
      intro name hn
      obtain ⟨e, hef, hen⟩ := List.mem_map.1 hn
      rw [← hen]
      exact (hall e (List.mem_filter.1 hef).1).2
    rw [hm4, List.length_map]
    have := length_filter_not_add (fun e => e.corrupted) entries
    omega

/-- Witness for C7: three direct `.m4a` audio entries with exactly one
corrupted yield two candidates. -/
theorem c7_witness :
    (∀ e ∈ m4aEntries, isAudioEntryName e.filename = true
        ∧ isM4aCandidate e.filename = true)
      ∧ (m4aEntries.filter (fun e => e.corrupted)).length = 1
      ∧ (OneFile.extract_audio_from_pptx m4aEntries).audio_files.length
          = m4aEntries.length - 1 :=
  ⟨by decide, by decide,
    (c7_amended_per_entry m4aEntries).2.2.2 (by decide) (by decide)⟩

theorem specMergeCues_cons_included (t : ℚ) (c : AudioClip) (rest : List AudioClip)
    (h : OneFile.includedClip c = true) :
    specMergeCues t (c :: rest)
      = OneFile.clipCues t c
        ++ specMergeCues (t + OneFile.get_audio_duration c) rest := by
  have hs : specIncluded c = true := by rw [← includedClip_eq_spec]; exact h
  simp [specMergeCues, hs, OneFile.clipCues]

/-- C5 counterexample: three consecutive included clips with no skipped
clip anywhere.  Taking i as the first and j as the third clip, no clip
between them was skipped, yet `offset(j) = 5 ≠ 2 = offset(i) + duration(i)`
— the "equality exactly when no clip between was skipped" biconditional
fails (equality actually tracks the *included* clips in between). -/
theorem c5_counterexample :
    OneFile.includedClip clipHello = true
      ∧ OneFile.includedClip clipWorld = true
      ∧ OneFile.includedClip clipAgain = true
      ∧ OneFile.offsetBefore c5Clips 0 + OneFile.get_audio_duration clipHello = 2
      ∧ OneFile.offsetBefore c5Clips 2 = 5
      ∧ ¬(OneFile.offsetBefore c5Clips 2
            = OneFile.offsetBefore c5Clips 0 + OneFile.get_audio_duration clipHello) := by
  have h1 : OneFile.includedClip clipHello = true := by decide
  have h2 : OneFile.includedClip clipWorld = true := by decide
  have d1 : OneFile.get_audio_duration clipHello = 2 := by decide
  have d2 : OneFile.get_audio_duration clipWorld = 3 := by decide
  have ho0 : OneFile.offsetBefore c5Clips 0 + OneFile.get_audio_duration clipHello = 2 := by
    rw [offsetBefore_eq, d1]
    norm_num [includedDur]
  have ho2 : OneFile.offsetBefore c5Clips 2 = 5 := by
    rw [offsetBefore_eq]
    simp [c5Clips, includedDur, List.filter_cons, h1, h2, d1, d2]
    norm_num
  refine ⟨h1, h2, by decide, ho0, ho2, ?_⟩
  rw [ho2, ho0]
  norm_num

/-- C5 amended: for included clips i before j the offset at j equals the
offset at i plus i's duration plus the total duration of the *included*
clips strictly between them; hence `offset(j) ≥ offset(i) + duration(i)`,
with equality exactly when no clip between i and j was included, and the
global cue start times are monotonically non-decreasing from i's cues to
j's cues; both cue groups occur inside the merged cue list. -/
theorem c5_amended_offsets (l₁ l₂ l₃ : List AudioClip) (ci cj : AudioClip)
    (hi : OneFile.includedClip ci = true) (hj : OneFile.includedClip cj = true)
    (hsi : ∀ seg ∈ ci.segments, seg.start ≤ OneFile.get_audio_duration ci)
    (hsj : ∀ seg ∈ cj.segments, 0 ≤ seg.start) :
    OneFile.offsetBefore (l₁ ++ ci :: (l₂ ++ cj :: l₃)) (l₁.length + 1 + l₂.length)
        = OneFile.offsetBefore (l₁ ++ ci :: (l₂ ++ cj :: l₃)) l₁.length
          + OneFile.get_audio_duration ci + includedDur l₂
      ∧ OneFile.offsetBefore (l₁ ++ ci :: (l₂ ++ cj :: l₃)) l₁.length
          + OneFile.get_audio_duration ci
          ≤ OneFile.offsetBefore (l₁ ++ ci :: (l₂ ++ cj :: l₃)) (l₁.length + 1 + l₂.length)
      ∧ (OneFile.offsetBefore (l₁ ++ ci :: (l₂ ++ cj :: l₃)) (l₁.length + 1 + l₂.length)
            = OneFile.offsetBefore (l₁ ++ ci :: (l₂ ++ cj :: l₃)) l₁.length
              + OneFile.get_audio_duration ci
          ↔ ∀ c ∈ l₂, OneFile.includedClip c = false)
      ∧ (∀ qi ∈ OneFile.clipCues
            (OneFile.offsetBefore (l₁ ++ ci :: (l₂ ++ cj :: l₃)) l₁.length) ci,
          ∀ qj ∈ OneFile.clipCues
            (OneFile.offsetBefore (l₁ ++ ci :: (l₂ ++ cj :: l₃))
              (l₁.length + 1 + l₂.length)) cj,
          qi.global_start ≤ qj.global_start)
      ∧ OneFile.clipCues
          (OneFile.offsetBefore (l₁ ++ ci :: (l₂ ++ cj :: l₃)) l₁.length) ci
          <:+: (OneFile.transcribe_and_merge (l₁ ++ ci :: (l₂ ++ cj :: l₃))).cues
      ∧ OneFile.clipCues
          (OneFile.offsetBefore (l₁ ++ ci :: (l₂ ++ cj :: l₃))
            (l₁.length + 1 + l₂.length)) cj
          <:+: (OneFile.transcribe_and_merge (l₁ ++ ci :: (l₂ ++ cj :: l₃))).cues := by
  have hdi : (1 : ℚ) ≤ OneFile.get_audio_duration ci :=
    not_lt.1 ((included_iff ci).1 hi).2.1
  have hoi : OneFile.offsetBefore (l₁ ++ ci :: (l₂ ++ cj :: l₃)) l₁.length
      = includedDur l₁ := by
    rw [offsetBefore_eq, List.take_left]
  have hsplit : l₁ ++ ci :: (l₂ ++ cj :: l₃) = (l₁ ++ ci :: l₂) ++ (cj :: l₃) := by
    simp
  have hlen : (l₁ ++ ci :: l₂).length = l₁.length + 1 + l₂.length := by
    simp
    omega
  have hoj : OneFile.offsetBefore (l₁ ++ ci :: (l₂ ++ cj :: l₃)) (l₁.length + 1 + l₂.length)
      = includedDur l₁ + OneFile.get_audio_duration ci + includedDur l₂ := by
    rw [offsetBefore_eq, hsplit, List.take_left' hlen, includedDur_append,
      includedDur_cons, hi]
    simp only [if_true]
    ring
  have hmain : OneFile.offsetBefore (l₁ ++ ci :: (l₂ ++ cj :: l₃)) (l₁.length + 1 + l₂.length)
      = OneFile.offsetBefore (l₁ ++ ci :: (l₂ ++ cj :: l₃)) l₁.length
        + OneFile.get_audio_duration ci + includedDur l₂ := by
    rw [hoj, hoi]
  have hge : OneFile.offsetBefore (l₁ ++ ci :: (l₂ ++ cj :: l₃)) l₁.length
      + OneFile.get_audio_duration ci
      ≤ OneFile.offsetBefore (l₁ ++ ci :: (l₂ ++ cj :: l₃)) (l₁.length + 1 + l₂.length) := by
    rw [hmain]
    have := includedDur_nonneg l₂
    linarith
  have hcucue : (OneFile.transcribe_and_merge (l₁ ++ ci :: (l₂ ++ cj :: l₃))).cues
      = specMergeCues 0 l₁
        ++ (OneFile.clipCues (includedDur l₁) ci
          ++ (specMergeCues (includedDur l₁ + OneFile.get_audio_duration ci) l₂
            ++ (OneFile.clipCues
                (includedDur l₁ + OneFile.get_audio_duration ci + includedDur l₂) cj
              ++ specMergeCues (includedDur l₁ + OneFile.get_audio_duration ci
                  + includedDur l₂ + OneFile.get_audio_duration cj) l₃))) := by
    rw [merge_cues_eq, specMergeCues_append, zero_add,
      specMergeCues_cons_included _ _ _ hi, specMergeCues_append,
      specMergeCues_cons_included _ _ _ hj]
  refine ⟨hmain, hge, ?_, ?_, ?_, ?_⟩
  · constructor
    · intro heq
      intro c hc
      cases hx : OneFile.includedClip c
      · rfl
      · exfalso
        have hpos := includedDur_pos_of_included l₂ c hc hx
        rw [hmain] at heq
        have : includedDur l₂ = 0 := by linarith
        linarith
    · intro hnone
      rw [hmain, includedDur_eq_zero_of_none l₂ hnone]
      exact add_zero _
  · intro qi hqi qj hqj
    obtain ⟨si, hsi', rfl⟩ := List.mem_map.1 hqi
    obtain ⟨sj, hsj', rfl⟩ := List.mem_map.1 hqj
    have h1 := hsi si hsi'
    have h2 := hsj sj hsj'
    simp only
    have := hge
    linarith
  · rw [hcucue, hoi]
    exact ⟨specMergeCues 0 l₁,
      specMergeCues (includedDur l₁ + OneFile.get_audio_duration ci) l₂
        ++ (OneFile.clipCues
            (includedDur l₁ + OneFile.get_audio_duration ci + includedDur l₂) cj
          ++ specMergeCues (includedDur l₁ + OneFile.get_audio_duration ci
              + includedDur l₂ + OneFile.get_audio_duration cj) l₃),
      by simp [List.append_assoc]⟩
  · rw [hcucue, hoj]
    exact ⟨specMergeCues 0 l₁
        ++ (OneFile.clipCues (includedDur l₁) ci
          ++ specMergeCues (includedDur l₁ + OneFile.get_audio_duration ci) l₂),
      specMergeCues (includedDur l₁ + OneFile.get_audio_duration ci + includedDur l₂
          + OneFile.get_audio_duration cj) l₃,
      by simp [List.append_assoc]⟩

/-- Witness for C5 at the spec's scenario: included clips `a.m4a` and
`c.m4a` with the skipped `b.m4a` between them. -/
theorem c5_witness :
    OneFile.includedClip clipHello = true
      ∧ OneFile.includedClip clipWorld = true
      ∧ (∀ seg ∈ clipHello.segments, seg.start ≤ OneFile.get_audio_duration clipHello)
      ∧ (∀ seg ∈ clipWorld.segments, 0 ≤ seg.start)
      ∧ OneFile.offsetBefore ([] ++ clipHello :: ([clipSilent] ++ clipWorld :: []))
            ([] : List AudioClip).length
          + OneFile.get_audio_duration clipHello
          ≤ OneFile.offsetBefore ([] ++ clipHello :: ([clipSilent] ++ clipWorld :: []))
              (([] : List AudioClip).length + 1 + [clipSilent].length) :=
  ⟨by decide, by decide, by decide, by decide,
    (c5_amended_offsets [] [clipSilent] [] clipHello clipWorld (by decide) (by decide)
      (by decide) (by decide)).2.1⟩

/-- C9 counterexample: the claim quantifies over every input path ending
in `.mp3` or `.wav`, but a path that also contains the substring `.m4a`,
such as `media/a.m4a.mp3`, is rewritten to `media/a.txt.mp3` — the
derived path differs from the input, so the output is not written over
the source file there. -/
theorem c9_counterexample :
    pyEndsWith trickyPath extMp3 = true
      ∧ Transcribe.text_path trickyPath = trickyTarget
      ∧ ¬(Transcribe.text_path trickyPath = trickyPath) :=
  ⟨by decide, by decide, by decide⟩

/-- C9 amended: for every input audio path ending in `.mp3` or `.wav` in
which the substring `.m4a` does not occur, `replace('.m4a', …)` finds
nothing: the derived text and cue paths equal the input path unchanged,
so the per-clip writer writes the transcription output over the source
audio file itself. -/
theorem c9_amended_paths (p : String)
    (hext : pyEndsWith p extMp3 = true ∨ pyEndsWith p extWav = true)
    (hno : ¬(extM4a.toList <:+: p.toList)) :
    Transcribe.text_path p = p ∧ Transcribe.vtt_path p = p := by
  rcases hext with h | h
  · exact ⟨pyReplace_of_no_occurrence p extM4a extTxt (by decide) hno,
      pyReplace_of_no_occurrence p extM4a extVtt (by decide) hno⟩
  · exact ⟨pyReplace_of_no_occurrence p extM4a extTxt (by decide) hno,
      pyReplace_of_no_occurrence p extM4a extVtt (by decide) hno⟩

/-- Witness for C9 at a plain `.mp3` media path. -/
theorem c9_witness :
    (pyEndsWith plainMp3Path extMp3 = true ∨ pyEndsWith plainMp3Path extWav = true)
      ∧ ¬(extM4a.toList <:+: plainMp3Path.toList)
      ∧ Transcribe.text_path plainMp3Path = plainMp3Path
      ∧ Transcribe.vtt_path plainMp3Path = plainMp3Path :=
  ⟨Or.inl (by decide), by decide,
    (c9_amended_paths plainMp3Path (Or.inl (by decide)) (by decide)).1,
    (c9_amended_paths plainMp3Path (Or.inl (by decide)) (by decide)).2⟩
